import Mathlib

/-!
The dump utility `leveldbutil`: command dispatch and output routing.

A shallow embedding of `db/leveldbutil.cc`: the two `WritableFile` printers,
`GetFileNameFromPath`, the two dump handlers and `main`.

The C library and the decoder `DumpFile` are external.  They are modelled by a
`World` (standard output, standard error, the files written, and the trace of
external calls in program order) and by a `Decoder` oracle that may depend on
the whole world at the moment of the call.  Every `fopen(_, "w")` and `fwrite`
is taken to succeed in full: the source never inspects their results, and a
null `FILE*` is outside the model.  An array read past its end is `none`.
-/

namespace leveldbutil

/-- A C or C++ string, as the sequence of its `char`s. -/
abbrev Str := List Char

/-- What the utility observes of a `leveldb::Status` (declared in `leveldb/status.h`):
the answer of `ok()` and the text of `ToString()`. -/
structure Status where
  ok : Bool
  ToString : Str

/-- `Status::OK()`. -/
def Status.OK : Status := ⟨true, "OK".toList⟩

/-- The two concrete `WritableFile` classes of the file. -/
inductive PrinterKind
  | StdoutPrinter
  | FilePrinter
  deriving DecidableEq, Repr

/-- A destination of `fwrite` / `fprintf`; a `FILE*` obtained from `fopen` is
named by the path it was opened at. -/
inductive Stream
  | stdout
  | stderr
  | file (path : Str)
  deriving DecidableEq

/-- One call that leaves the translation unit, in program order.  `DumpFile` is
recorded when it returns, together with the status it returned. -/
inductive Event
  | fopen (path : Str)
  | fwrite (dst : Stream) (data : Str)
  | fclose (path : Str)
  | DumpFile (fname : Str) (kind : PrinterKind) (path : Str) (result : Status)

/-- The process environment the utility acts on. -/
structure World where
  /-- bytes written to standard output -/
  out : Str
  /-- bytes written to standard error -/
  err : Str
  /-- contents of the files, by path (`none`: no such file) -/
  fs : Str → Option Str
  /-- the external calls made so far -/
  trace : List Event

/-- The external `DumpFile(env, fname, dst)`: given the world at the moment of
the call and the input path, the chunks it passes to `dst->Append`, in order,
and the status it returns. -/
abbrev Decoder := World → Str → List Str × Status

/-- `fopen(path, "w")`: the file is created or truncated to length zero. -/
def fopen (path : Str) (w : World) : World :=
  { w with fs := Function.update w.fs path (some []), trace := w.trace ++ [Event.fopen path] }

/-- `fwrite(data.data(), 1, data.size(), dst)`, and `fprintf(dst, ...)` once formatted. -/
def fwrite (data : Str) (dst : Stream) (w : World) : World :=
  match dst with
  | Stream.stdout => { w with out := w.out ++ data, trace := w.trace ++ [Event.fwrite dst data] }
  | Stream.stderr => { w with err := w.err ++ data, trace := w.trace ++ [Event.fwrite dst data] }
  | Stream.file p =>
    { w with fs := Function.update w.fs p (some ((w.fs p).getD [] ++ data)),
             trace := w.trace ++ [Event.fwrite dst data] }

/-- `fclose(file)`. -/
def fclose (path : Str) (w : World) : World :=
  { w with trace := w.trace ++ [Event.fclose path] }

/-- A printer object: its dynamic class and its member `file`. -/
structure Printer where
  kind : PrinterKind
  file : Str

/-- `FilePrinter::FilePrinter(filepath)`: `file = fopen(filepath, "w")`. -/
def FilePrinter.new (filepath : Str) (w : World) : Printer × World :=
  (⟨PrinterKind.FilePrinter, filepath⟩, fopen filepath w)

/-- `StdoutPrinter::StdoutPrinter(filename)`: `file = fopen(filename, "w")`. -/
def StdoutPrinter.new (filename : Str) (w : World) : Printer × World :=
  (⟨PrinterKind.StdoutPrinter, filename⟩, fopen filename w)

/-- The destructor of either class: `fclose(file)`. -/
def Printer.delete (p : Printer) (w : World) : World :=
  fclose p.file w

/-- The virtual `Append(data)`.  `StdoutPrinter` writes to `stdout`, then to
`file`; `FilePrinter` writes to `file`.  Both return `Status::OK()`. -/
def Printer.Append (p : Printer) (data : Str) (w : World) : Status × World :=
  match p.kind with
  | PrinterKind.StdoutPrinter =>
    let w1 := fwrite data Stream.stdout w
    let w2 := fwrite data (Stream.file p.file) w1
    (Status.OK, w2)
  | PrinterKind.FilePrinter =>
    let w1 := fwrite data (Stream.file p.file) w
    (Status.OK, w1)

/-- `Close()`, `Flush()` and `Sync()` of either class: `return Status::OK()`. -/
def Printer.Close (_p : Printer) (w : World) : Status × World := (Status.OK, w)

/-- A sequence of `dst->Append(data)` calls, one per chunk, in order. -/
def appendAll (dst : Printer) (chunks : List Str) (w : World) : World :=
  chunks.foldl (fun acc data => (dst.Append data acc).2) w

/-- A call of the external `DumpFile(env, fname, dst)`: the decoder appends its
chunks to `dst` and returns its status. -/
def DumpFile (dec : Decoder) (fname : Str) (dst : Printer) (w : World) : Status × World :=
  let r := dec w fname
  let w1 := appendAll dst r.1 w
  (r.2, { w1 with trace := w1.trace ++ [Event.DumpFile fname dst.kind dst.file r.2] })

/-- `std::string::find_last_of(chars)`: the highest position of `s` holding a
character of `chars`; `none` stands for `npos`. -/
def find_last_of (s chars : Str) : Option Nat :=
  go s.length
where
  /-- Scan downwards from position `n - 1`. -/
  go : Nat → Option Nat
    | 0 => none
    | i + 1 => if s.getD i default ∈ chars then some i else go i

/-- `std::string::substr(pos)` for `pos ≤ size()`. -/
def substr (s : Str) (pos : Nat) : Str := s.drop pos

/-- `GetFileNameFromPath`, lines 57-63. -/
def GetFileNameFromPath (path : Str) : Str :=
  match find_last_of path "/\\".toList with
  | some found => substr path (found + 1)
  | none => path

/-- `for (int i = 0; i < num; i++) body`: `n` iterations remain and `i` is the
current index; the body may be undefined (`none`). -/
def forLoop {σ : Type} (body : Nat → σ → Option σ) : Nat → Nat → σ → Option σ
  | 0, _, s => some s
  | n + 1, i, s => (body i s).bind (forLoop body n (i + 1))

/-- The `if (!s.ok())` block shared by both handlers: print the status on
standard error and clear `ok`. -/
def report (s : Status) (ok : Bool) (w : World) : Bool × World :=
  if !s.ok then (false, fwrite (s.ToString ++ "\n".toList) Stream.stderr w) else (ok, w)

/-- One iteration of the loop of `HandleDumpCommand`, lines 68-76, on the loop
state `(ok, world)`. -/
def HandleDumpCommand.body (dec : Decoder) (files : List Str) (i : Nat) (st : Bool × World) :
    Option (Bool × World) :=
  match files[i]? with
  | none => none
  | some fi =>
    let filename : Str := ([] ++ fi) ++ "_output.txt".toList
    let pw := StdoutPrinter.new filename st.2
    let sw := DumpFile dec fi pw.1 pw.2
    let r := report sw.1 st.1 sw.2
    some (r.1, pw.1.delete r.2)

/-- `HandleDumpCommand(env, files, num)`, lines 65-79. -/
def HandleDumpCommand (dec : Decoder) (files : List Str) (num : Int) (w : World) :
    Option (Bool × World) :=
  forLoop (HandleDumpCommand.body dec files) num.toNat 0 (true, w)

/-- One iteration of the loop of `HandleDumpFileCommand`, lines 84-92. -/
def HandleDumpFileCommand.body (dec : Decoder) (files : List Str) (filepath : Str) (i : Nat)
    (st : Bool × World) : Option (Bool × World) :=
  match files[i]? with
  | none => none
  | some fi =>
    let path : Str := (filepath ++ GetFileNameFromPath fi) ++ "_output.txt".toList
    let pw := FilePrinter.new path st.2
    let sw := DumpFile dec fi pw.1 pw.2
    let r := report sw.1 st.1 sw.2
    some (r.1, pw.1.delete r.2)

/-- `HandleDumpFileCommand(env, files, num, filepath)`, lines 81-95. -/
def HandleDumpFileCommand (dec : Decoder) (files : List Str) (num : Int) (filepath : Str)
    (w : World) : Option (Bool × World) :=
  forLoop (HandleDumpFileCommand.body dec files filepath) num.toNat 0 (true, w)

/-- The text `Usage()` prints, lines 103-106. -/
def usageText : Str :=
  ("Usage: leveldbutil command...\n" ++
   "   --dump files...                    -- dump contents of specified files\n" ++
   "   --dump files... --path filepath    -- dump contents to target path\n\n" ++
   "eg. leveldbutil.exe --dump C://xxx.com.leveldb/000003.log --path D://output/\n").toList

/-- `Usage()`, lines 100-107. -/
def Usage (w : World) : World := fwrite usageText Stream.stderr w

/-- `argv[i]` for an `int` index; `none` outside `0 .. argc - 1`. -/
def argAt (argv : List Str) (i : Int) : Option Str :=
  if 0 ≤ i then argv[i.toNat]? else none

/-- What `main` decides to run, with the arguments it passes. -/
inductive Call
  | Usage
  | HandleDumpFileCommand (files : List Str) (num : Int) (filepath : Str)
  | HandleDumpCommand (files : List Str) (num : Int)
  deriving DecidableEq

/-- The branch structure of `main`, lines 112-129, up to the call it selects.
`argv + 2` is the argument list without its first two entries. -/
def main.select (argv : List Str) : Option Call :=
  let argc : Int := argv.length
  if argc < 2 then
    some Call.Usage
  else
    (argAt argv 1).bind fun command =>
      if command = "--dump".toList then
        (argAt argv (argc - 2)).bind fun command2 =>
          if command2 = "--path".toList then
            (argAt argv (argc - 1)).bind fun filepath =>
              some (Call.HandleDumpFileCommand (argv.drop 2) (argc - 4) filepath)
          else
            some (Call.HandleDumpCommand (argv.drop 2) (argc - 2))
      else
        some Call.Usage

/-- The selected call, giving the value assigned to `ok`. -/
def runCall (dec : Decoder) (c : Call) (w : World) : Option (Bool × World) :=
  match c with
  | Call.Usage => some (false, Usage w)
  | Call.HandleDumpFileCommand files num filepath => HandleDumpFileCommand dec files num filepath w
  | Call.HandleDumpCommand files num => HandleDumpCommand dec files num w

/-- `main(argc, argv)`, lines 109-131, with `argc = argv.length`: the exit code
and the final world. -/
def main (dec : Decoder) (argv : List Str) (w : World) : Option (Int × World) :=
  (main.select argv).bind fun c =>
    (runCall dec c w).map fun r => ((if r.1 then 0 else 1), r.2)

/-! ## Observations on a trace -/

/-- The path of an `fopen` event. -/
def Event.opens : Event → Option Str
  | Event.fopen p => some p
  | _ => none

/-- A decoder call, as `(input path, (class of the sink, path of the sink), ok())`. -/
def Event.decodes : Event → Option (Str × (PrinterKind × Str) × Bool)
  | Event.DumpFile f k p s => some (f, (k, p), s.ok)
  | _ => none

/-- The paths passed to `fopen`, in order. -/
def opened (t : List Event) : List Str := t.filterMap Event.opens

/-- The decoder calls, in order. -/
def decoded (t : List Event) : List (Str × (PrinterKind × Str) × Bool) :=
  t.filterMap Event.decodes

/-- The input paths passed to the decoder, in order. -/
def dumped (t : List Event) : List Str := (decoded t).map fun c => c.1

/-- The output path `HandleDumpCommand` derives for an input. -/
def consolePath (f : Str) : Str := f ++ "_output.txt".toList

/-- The output path `HandleDumpFileCommand` derives for an input. -/
def redirectPath (filepath f : Str) : Str :=
  filepath ++ GetFileNameFromPath f ++ "_output.txt".toList

/-- The body of either loop after `files[i]` was read as `fi`: a printer made
by `mk` at `path`, the decoder call, the report, the destructor. -/
def visit (dec : Decoder) (mk : Str → World → Printer × World) (path fi : Str)
    (st : Bool × World) : Bool × World :=
  let pw := mk path st.2
  let sw := DumpFile dec fi pw.1 pw.2
  let r := report sw.1 st.1 sw.2
  (r.1, pw.1.delete r.2)

/-- The exit code `main` returns for a value of `ok`. -/
def exitCode (ok : Bool) : Int := if ok then 0 else 1

/-- A world with nothing written and no file. -/
def World.empty : World := ⟨[], [], fun _ => none, []⟩

/-- A decoder that writes nothing and always succeeds. -/
def decOK : Decoder := fun _ _ => ([], Status.OK)

/-- A counted loop that reads past the end of `files` is undefined. -/
theorem forLoop_files_none {σ : Type} (g : Str → σ → σ) (files : List Str) (n i : Nat) (s : σ)
    (hi : i ≤ files.length) (h : files.length < i + n) :
    forLoop (fun j st => (files[j]?).map (fun f => g f st)) n i s = none := by
  induction n generalizing i s with
  | zero => omega
  | succ n ih =>
    by_cases hi : i < files.length
    · simp only [forLoop, List.getElem?_eq_getElem hi, Option.map_some', Option.some_bind]
      exact ih (i + 1) _ (by omega) (by omega)
    · simp [forLoop, List.getElem?_eq_none (Nat.le_of_not_lt hi)]

theorem HandleDumpCommand_body_eq (dec : Decoder) (files : List Str) :
    HandleDumpCommand.body dec files = fun j st =>
      (files[j]?).map (fun f => visit dec StdoutPrinter.new (consolePath f) f st) := by
  funext j st
  unfold HandleDumpCommand.body
  cases files[j]? <;> rfl

theorem HandleDumpFileCommand_body_eq (dec : Decoder) (files : List Str) (filepath : Str) :
    HandleDumpFileCommand.body dec files filepath = fun j st =>
      (files[j]?).map (fun f => visit dec FilePrinter.new (redirectPath filepath f) f st) := by
  funext j st
  unfold HandleDumpFileCommand.body
  cases files[j]? <;> rfl

/-- Past the end of the array `HandleDumpCommand` has no defined result. -/
theorem HandleDumpCommand_past_end (dec : Decoder) (files : List Str) (num : Int) (w : World)
    (h : (files.length : Int) < num) : HandleDumpCommand dec files num w = none := by
  unfold HandleDumpCommand
  rw [HandleDumpCommand_body_eq]
  exact forLoop_files_none _ files num.toNat 0 (true, w) (Nat.zero_le _) (by omega)

/-- Past the end of the array `HandleDumpFileCommand` has no defined result. -/
theorem HandleDumpFileCommand_past_end (dec : Decoder) (files : List Str) (num : Int)
    (filepath : Str) (w : World) (h : (files.length : Int) < num) :
    HandleDumpFileCommand dec files num filepath w = none := by
  unfold HandleDumpFileCommand
  rw [HandleDumpFileCommand_body_eq]
  exact forLoop_files_none _ files num.toNat 0 (true, w) (Nat.zero_le _) (by omega)

/-! ### `GetFileNameFromPath` -/

theorem find_last_of_go_none (s chars : Str) (h : ∀ c ∈ s, c ∉ chars) (n : Nat)
    (hn : n ≤ s.length) : find_last_of.go s chars n = none := by
  induction n with
  | zero => rfl
  | succ i ih =>
    have hi : i < s.length := by omega
    have hmem : s.getD i default ∉ chars := by
      rw [List.getD_eq_getElem s default hi]
      exact h _ (List.getElem_mem hi)
    simp only [find_last_of.go, hmem, if_false]
    exact ih (by omega)

theorem find_last_of_go_split (pre suf chars : Str) (c : Char) (hc : c ∈ chars)
    (hsuf : ∀ x ∈ suf, x ∉ chars) (k : Nat) (hk : k ≤ suf.length) :
    find_last_of.go (pre ++ c :: suf) chars (pre.length + 1 + k) = some pre.length := by
  induction k with
  | zero =>
    have hget : (pre ++ c :: suf).getD pre.length default = c := by
      have h1 : pre.length < (pre ++ c :: suf).length := by simp
      rw [List.getD_eq_getElem _ default h1, List.getElem_append_right (Nat.le_refl _)]
      simp
    simp only [Nat.add_zero, find_last_of.go, hget, hc, if_true]
  | succ k ih =>
    have hk2 : k < suf.length := by omega
    have hget : (pre ++ c :: suf).getD (pre.length + 1 + k) default = suf[k] := by
      have h1 : pre.length + 1 + k < (pre ++ c :: suf).length := by simp; omega
      rw [List.getD_eq_getElem _ default h1]
      rw [List.getElem_append_right (by omega)]
      have h2 : pre.length + 1 + k - pre.length = k + 1 := by omega
      simp [h2]
    have hmem : (pre ++ c :: suf).getD (pre.length + 1 + k) default ∉ chars := by
      rw [hget]; exact hsuf _ (List.getElem_mem hk2)
    have hstep : find_last_of.go (pre ++ c :: suf) chars (pre.length + 1 + (k + 1)) =
        find_last_of.go (pre ++ c :: suf) chars (pre.length + 1 + k) := by
      show find_last_of.go (pre ++ c :: suf) chars ((pre.length + 1 + k) + 1) = _
      simp only [find_last_of.go, hmem, if_false]
    rw [hstep]
    exact ih (by omega)

/-- The last separator splits the path: what follows it is the result. -/
theorem GetFileNameFromPath_split (pre suf : Str) (c : Char) (hc : c = '/' ∨ c = '\\')
    (hsuf : ∀ x ∈ suf, x ≠ '/' ∧ x ≠ '\\') : GetFileNameFromPath (pre ++ c :: suf) = suf := by
  have hc2 : c ∈ "/\\".toList := by
    rcases hc with h | h <;> simp [h]
  have hs2 : ∀ x ∈ suf, x ∉ "/\\".toList := by
    intro x hx hmem
    have := hsuf x hx
    simp at hmem
    tauto
  have hfind : find_last_of (pre ++ c :: suf) "/\\".toList = some pre.length := by
    unfold find_last_of
    have hlen : (pre ++ c :: suf).length = pre.length + 1 + suf.length := by simp; omega
    rw [hlen]
    exact find_last_of_go_split pre suf _ c hc2 hs2 suf.length (Nat.le_refl _)
  unfold GetFileNameFromPath
  rw [hfind]
  simp [substr]

/-- Without a separator the path is returned as it is. -/
theorem GetFileNameFromPath_plain (path : Str) (h : ∀ x ∈ path, x ≠ '/' ∧ x ≠ '\\') :
    GetFileNameFromPath path = path := by
  have hs2 : ∀ x ∈ path, x ∉ "/\\".toList := by
    intro x hx hmem
    have := h x hx
    simp at hmem
    tauto
  unfold GetFileNameFromPath find_last_of
  rw [find_last_of_go_none path _ hs2 path.length (Nat.le_refl _)]

/-- A list with an element satisfying `P` splits at the last such element. -/
theorem exists_last_split (P : Char → Prop) (path : Str) (h : ∃ c ∈ path, P c) :
    ∃ pre c suf, path = pre ++ c :: suf ∧ P c ∧ ∀ x ∈ suf, ¬ P x := by
  induction path using List.reverseRecOn with
  | nil => obtain ⟨c, hc, _⟩ := h; cases hc
  | append_singleton init x ih =>
    by_cases hx : P x
    · exact ⟨init, x, [], rfl, hx, by simp⟩
    · obtain ⟨c, hc, hPc⟩ := h
      have hc2 : c ∈ init := by
        rcases List.mem_append.mp hc with h1 | h1
        · exact h1
        · simp at h1; subst h1; exact absurd hPc hx
      obtain ⟨pre, c0, suf, hsplit, hP0, hsuf⟩ := ih ⟨c, hc2, hPc⟩
      refine ⟨pre, c0, suf ++ [x], by simp [hsplit], hP0, ?_⟩
      intro y hy
      rcases List.mem_append.mp hy with h1 | h1
      · exact hsuf y h1
      · simp at h1; subst h1; exact hx

theorem argAt_ofNat (argv : List Str) (k : Nat) : argAt argv (k : Int) = argv[k]? := by
  simp [argAt]

theorem argAt_sub (argv : List Str) (k : Nat) (hk : k ≤ argv.length) :
    argAt argv ((argv.length : Int) - k) = argv[argv.length - k]? := by
  have h : ((argv.length : Int) - k) = ((argv.length - k : Nat) : Int) := by omega
  rw [h, argAt_ofNat]

theorem select_usage (argv : List Str)
    (h : argv.length < 2 ∨ argv[1]? ≠ some "--dump".toList) :
    main.select argv = some Call.Usage := by
  unfold main.select
  by_cases hlen : argv.length < 2
  · have h1 : ((argv.length : Int) < 2) := by omega
    simp only [h1, if_true]
  · have h1 : ¬ ((argv.length : Int) < 2) := by omega
    have h2 : argv[1]? ≠ some "--dump".toList := by
      rcases h with h | h
      · exact absurd h hlen
      · exact h
    have h3 : (1 : Int) = ((1 : Nat) : Int) := rfl
    simp only [h1, if_false]
    rw [h3, argAt_ofNat]
    cases hc : argv[1]? with
    | none =>
      have := List.getElem?_eq_none_iff.mp hc
      omega
    | some c =>
      have hne : c ≠ "--dump".toList := fun e => h2 (by rw [hc, e])
      simp only [Option.some_bind, hne, if_false]

theorem select_redirect (argv : List Str) (hlen : 2 ≤ argv.length)
    (hd : argv[1]? = some "--dump".toList)
    (hp : argv[argv.length - 2]? = some "--path".toList) :
    ∃ dir, argv[argv.length - 1]? = some dir ∧
      main.select argv =
        some (Call.HandleDumpFileCommand (argv.drop 2) ((argv.length : Int) - 4) dir) := by
  have hlast : argv.length - 1 < argv.length := by omega
  refine ⟨argv[argv.length - 1], List.getElem?_eq_getElem hlast, ?_⟩
  unfold main.select
  have h1 : ¬ ((argv.length : Int) < 2) := by omega
  have h3 : (1 : Int) = ((1 : Nat) : Int) := rfl
  have h4 : (2 : Int) = ((2 : Nat) : Int) := rfl
  simp only [h1, if_false]
  rw [h3, argAt_ofNat, hd, h4, argAt_sub argv 2 hlen, hp, argAt_sub argv 1 (by omega),
    List.getElem?_eq_getElem hlast]
  simp only [Option.some_bind, if_true]

theorem select_console (argv : List Str) (hlen : 2 ≤ argv.length)
    (hd : argv[1]? = some "--dump".toList)
    (hp : argv[argv.length - 2]? ≠ some "--path".toList) :
    main.select argv = some (Call.HandleDumpCommand (argv.drop 2) ((argv.length : Int) - 2)) := by
  have hpos : argv.length - 2 < argv.length := by omega
  unfold main.select
  have h1 : ¬ ((argv.length : Int) < 2) := by omega
  have h3 : (1 : Int) = ((1 : Nat) : Int) := rfl
  have h4 : (2 : Int) = ((2 : Nat) : Int) := rfl
  have hne : argv[argv.length - 2] ≠ "--path".toList := fun e =>
    hp (by rw [List.getElem?_eq_getElem hpos, e])
  simp only [h1, if_false]
  rw [h3, argAt_ofNat, hd, h4, argAt_sub argv 2 hlen, List.getElem?_eq_getElem hpos]
  simp only [Option.some_bind, if_true, hne, if_false]

theorem main_eq (dec : Decoder) (argv : List Str) (w : World) (c : Call)
    (h : main.select argv = some c) :
    main dec argv w = (runCall dec c w).map fun r => (exitCode r.1, r.2) := by
  unfold main
  rw [h]; rfl

/-- The redirect branch is selected only from `argv[1] = "--dump"` and
`argv[argc-2] = "--path"`. -/
theorem select_redirect_inv (argv files : List Str) (num : Int) (filepath : Str)
    (h : main.select argv = some (Call.HandleDumpFileCommand files num filepath)) :
    2 ≤ argv.length ∧ argv[1]? = some "--dump".toList ∧
      argv[argv.length - 2]? = some "--path".toList := by
  by_cases hu : argv.length < 2 ∨ argv[1]? ≠ some "--dump".toList
  · rw [select_usage argv hu] at h
    cases h
  · have hlen : 2 ≤ argv.length := by
      by_contra hc; exact hu (Or.inl (by omega))
    have hd : argv[1]? = some "--dump".toList := by
      by_contra hc; exact hu (Or.inr hc)
    by_cases hp : argv[argv.length - 2]? = some "--path".toList
    · exact ⟨hlen, hd, hp⟩
    · rw [select_console argv hlen hd hp] at h
      cases h

/-! ### The two printers -/

theorem appendAll_cons (dst : Printer) (d : Str) (ds : List Str) (w : World) :
    appendAll dst (d :: ds) w = appendAll dst ds (dst.Append d w).2 := rfl

/-- A run of appends on a `StdoutPrinter` whose file holds `c`. -/
theorem appendAll_stdout (p c : Str) (ds : List Str) (w : World) (h : w.fs p = some c) :
    (appendAll ⟨PrinterKind.StdoutPrinter, p⟩ ds w).out = w.out ++ ds.flatten ∧
    (appendAll ⟨PrinterKind.StdoutPrinter, p⟩ ds w).fs p = some (c ++ ds.flatten) ∧
    (appendAll ⟨PrinterKind.StdoutPrinter, p⟩ ds w).err = w.err ∧
    ∀ q, q ≠ p → (appendAll ⟨PrinterKind.StdoutPrinter, p⟩ ds w).fs q = w.fs q := by
  induction ds generalizing w c with
  | nil => simp [appendAll, h]
  | cons d ds ih =>
    have h1 : ((⟨PrinterKind.StdoutPrinter, p⟩ : Printer).Append d w).2.fs p = some (c ++ d) := by
      simp [Printer.Append, fwrite, h]
    obtain ⟨ho, hf, he, hq⟩ := ih (c ++ d) _ h1
    rw [appendAll_cons]
    refine ⟨?_, ?_, ?_, ?_⟩
    · rw [ho]; simp [Printer.Append, fwrite]
    · rw [hf]; simp
    · rw [he]; simp [Printer.Append, fwrite]
    · intro q hne
      rw [hq q hne]
      simp [Printer.Append, fwrite, Function.update_noteq hne]

/-- A run of appends on a `FilePrinter` whose file holds `c`. -/
theorem appendAll_file (p c : Str) (ds : List Str) (w : World) (h : w.fs p = some c) :
    (appendAll ⟨PrinterKind.FilePrinter, p⟩ ds w).out = w.out ∧
    (appendAll ⟨PrinterKind.FilePrinter, p⟩ ds w).fs p = some (c ++ ds.flatten) ∧
    (appendAll ⟨PrinterKind.FilePrinter, p⟩ ds w).err = w.err ∧
    ∀ q, q ≠ p → (appendAll ⟨PrinterKind.FilePrinter, p⟩ ds w).fs q = w.fs q := by
  induction ds generalizing w c with
  | nil => simp [appendAll, h]
  | cons d ds ih =>
    have h1 : ((⟨PrinterKind.FilePrinter, p⟩ : Printer).Append d w).2.fs p = some (c ++ d) := by
      simp [Printer.Append, fwrite, h]
    obtain ⟨ho, hf, he, hq⟩ := ih (c ++ d) _ h1
    rw [appendAll_cons]
    refine ⟨?_, ?_, ?_, ?_⟩
    · rw [ho]; simp [Printer.Append, fwrite]
    · rw [hf]; simp
    · rw [he]; simp [Printer.Append, fwrite]
    · intro q hne
      rw [hq q hne]
      simp [Printer.Append, fwrite, Function.update_noteq hne]

/-! ### Output files -/

/-- C1: `GetFileNameFromPath(path)` is the part of `path` strictly after the
last position holding a slash or a backslash when there is one (the position is
`pre.length`, nothing after it is a separator), and `path` itself when there
is none; `"/a/b/c.log"`, `"c.log"` and `"a\\b\\c.log"` all give `"c.log"`, and a
path ending in a separator gives the empty string. -/
theorem C1_GetFileNameFromPath (path : Str) :
    ((∃ c ∈ path, c = '/' ∨ c = '\\') →
      ∃ pre c suf, path = pre ++ c :: suf ∧ (c = '/' ∨ c = '\\') ∧
        (∀ x ∈ suf, x ≠ '/' ∧ x ≠ '\\') ∧
        GetFileNameFromPath path = path.drop (pre.length + 1) ∧
        GetFileNameFromPath path = suf) ∧
    ((∀ x ∈ path, x ≠ '/' ∧ x ≠ '\\') → GetFileNameFromPath path = path) ∧
    GetFileNameFromPath "/a/b/c.log".toList = "c.log".toList ∧
    GetFileNameFromPath "c.log".toList = "c.log".toList ∧
    GetFileNameFromPath "a\\b\\c.log".toList = "c.log".toList ∧
    GetFileNameFromPath "a/b/".toList = [] := by
  refine ⟨?_, GetFileNameFromPath_plain path, by decide, by decide, by decide, by decide⟩
  intro h
  obtain ⟨pre, c, suf, hsplit, hc, hsuf⟩ := exists_last_split _ path h
  have hsuf2 : ∀ x ∈ suf, x ≠ '/' ∧ x ≠ '\\' := fun x hx => by
    have := hsuf x hx; tauto
  have hG := GetFileNameFromPath_split pre suf c hc hsuf2
  refine ⟨pre, c, suf, hsplit, hc, hsuf2, ?_, ?_⟩
  · rw [hsplit, hG]; simp
  · rw [hsplit, hG]

/-- C1 at `"x/y\\A.log"`, which holds both separators, and at `"c.log"`, which
holds none. -/
theorem C1_GetFileNameFromPath_witness :
    (∃ pre c suf, "x/y\\A.log".toList = pre ++ c :: suf ∧ (c = '/' ∨ c = '\\') ∧
        (∀ x ∈ suf, x ≠ '/' ∧ x ≠ '\\') ∧
        GetFileNameFromPath "x/y\\A.log".toList = "x/y\\A.log".toList.drop (pre.length + 1) ∧
        GetFileNameFromPath "x/y\\A.log".toList = suf) ∧
    GetFileNameFromPath "c.log".toList = "c.log".toList :=
  ⟨(C1_GetFileNameFromPath "x/y\\A.log".toList).1 ⟨'/', by decide, Or.inl rfl⟩,
   (C1_GetFileNameFromPath "c.log".toList).2.1 (by decide)⟩

/-- C5: when `argc < 2` or `argv[1]` is not `"--dump"`, whatever else `argv`
holds, `main` selects `Usage`, returns 1, prints the usage text on standard
error and does nothing else: no `fopen`, no decoder call, standard output and
the files untouched. -/
theorem C5_usage (dec : Decoder) (argv : List Str) (w : World)
    (h : argv.length < 2 ∨ argv[1]? ≠ some "--dump".toList) :
    main.select argv = some Call.Usage ∧
    ∃ w1, main dec argv w = some (1, w1) ∧ w1.err = w.err ++ usageText ∧
      w1.out = w.out ∧ w1.fs = w.fs ∧
      w1.trace = w.trace ++ [Event.fwrite Stream.stderr usageText] ∧
      opened [Event.fwrite Stream.stderr usageText] = [] ∧
      dumped [Event.fwrite Stream.stderr usageText] = [] := by
  have hs := select_usage argv h
  refine ⟨hs, Usage w, ?_, rfl, rfl, rfl, rfl, rfl, rfl⟩
  rw [main_eq dec argv w _ hs]; rfl

/-- C5 at `prog --path a --path d` and at `prog` alone. -/
theorem C5_usage_witness :
    (∃ w1, main decOK ["prog".toList, "--path".toList, "a".toList, "--path".toList, "d".toList]
        World.empty = some (1, w1) ∧ w1.err = usageText ∧ w1.out = [] ∧
      opened w1.trace = [] ∧ dumped w1.trace = []) ∧
    (∃ w1, main decOK ["prog".toList] World.empty = some (1, w1) ∧ w1.err = usageText) := by
  obtain ⟨_, w1, hrun, he, ho, _, ht, _, _⟩ := C5_usage decOK
    ["prog".toList, "--path".toList, "a".toList, "--path".toList, "d".toList] World.empty
    (Or.inr (by decide))
  obtain ⟨_, w2, hrun2, he2, _⟩ := C5_usage decOK ["prog".toList] World.empty
    (Or.inl (by decide))
  exact ⟨⟨w1, hrun, he, ho, by rw [ht]; rfl, by rw [ht]; rfl⟩, ⟨w2, hrun2, he2⟩⟩

/-- C10: when `main` takes the redirect branch it passes `argv + 2`, the count
`argc - 4` and `argv[argc-1]`.  The count is negative only for `argc = 2` with
`argv[0] = "--path"`; from `argc ≥ 3` on the branch needs `argc ≥ 4`, so the
count is non-negative, every file read is an `argv[i+2]` with
`1 < i + 2 < argc - 2`, and the target index `argc - 1` is at least 3.  With
`argc = 3`, `prog --dump --path` is a console dump of the file `--path`. -/
theorem C10_redirect_bounds (argv files : List Str) (num : Int) (filepath : Str)
    (h : main.select argv = some (Call.HandleDumpFileCommand files num filepath)) :
    (argv[1]? = some "--dump".toList ∧ argv[argv.length - 2]? = some "--path".toList) ∧
    files = argv.drop 2 ∧ num = (argv.length : Int) - 4 ∧
    argv[argv.length - 1]? = some filepath ∧
    (num < 0 → argv.length = 2 ∧ argv[0]? = some "--path".toList) ∧
    (3 ≤ argv.length → 4 ≤ argv.length ∧ 0 ≤ num ∧ 3 ≤ argv.length - 1 ∧
      ∀ i : Nat, (i : Int) < num →
        files[i]? = argv[i + 2]? ∧ 1 < i + 2 ∧ i + 2 < argv.length - 2) ∧
    main.select ["prog".toList, "--dump".toList, "--path".toList] =
      some (Call.HandleDumpCommand ["--path".toList] 1) ∧
    main.select ["--path".toList, "--dump".toList] =
      some (Call.HandleDumpFileCommand [] (-2) "--dump".toList) := by
  obtain ⟨hlen, hd, hp⟩ := select_redirect_inv argv files num filepath h
  obtain ⟨dir, hdir, hsel⟩ := select_redirect argv hlen hd hp
  rw [hsel] at h
  simp only [Option.some.injEq, Call.HandleDumpFileCommand.injEq] at h
  obtain ⟨hf, hn, hfp⟩ := h
  subst hf hn hfp
  have hne3 : argv.length ≠ 3 := by
    intro h3
    rw [h3] at hp
    rw [show 3 - 2 = 1 from rfl, hd] at hp
    exact absurd hp (by decide)
  refine ⟨⟨hd, hp⟩, rfl, rfl, hdir, ?_, ?_, by decide, by decide⟩
  · intro hneg
    have h2 : argv.length = 2 := by omega
    refine ⟨h2, ?_⟩
    rw [h2] at hp
    exact hp
  · intro h3
    have h4 : 4 ≤ argv.length := by omega
    refine ⟨h4, by omega, by omega, ?_⟩
    intro i hi
    refine ⟨?_, by omega, by omega⟩
    rw [List.getElem?_drop, Nat.add_comm]

/-- C10 at `prog --dump a --path d`: the handler gets `argv + 2` and the count 1. -/
theorem C10_redirect_bounds_witness :
    main.select ["prog".toList, "--dump".toList, "a".toList, "--path".toList, "d".toList] =
      some (Call.HandleDumpFileCommand ["a".toList, "--path".toList, "d".toList] 1 "d".toList) ∧
    (4 ≤ ["prog".toList, "--dump".toList, "a".toList, "--path".toList, "d".toList].length ∧
      (0 : Int) ≤ 1) := by
  have hsel : main.select
      ["prog".toList, "--dump".toList, "a".toList, "--path".toList, "d".toList] =
      some (Call.HandleDumpFileCommand ["a".toList, "--path".toList, "d".toList] 1 "d".toList) := by
    decide
  obtain ⟨_, _, _, _, _, hb, _, _⟩ := C10_redirect_bounds _ _ _ _ hsel
  obtain ⟨h4, h0, _, _⟩ := hb (by decide)
  exact ⟨hsel, h4, h0⟩

/-- C9: on a `StdoutPrinter` over the file at `p`, `Append(data)` writes all of
`data` to standard output, then all of it to the file, and returns OK; once
constructed, after any appends `ds` the file holds exactly their concatenation,
which is also what standard output gained.  On a `FilePrinter`, `Append(data)`
writes all of `data` to the file only and returns OK, and standard output
stays as it was.  Neither touches standard error or another file. -/
theorem C9_append (p data : Str) (ds : List Str) (w : World) :
    (((⟨PrinterKind.StdoutPrinter, p⟩ : Printer).Append data w).1 = Status.OK ∧
      ((⟨PrinterKind.StdoutPrinter, p⟩ : Printer).Append data w).2.out = w.out ++ data ∧
      ((⟨PrinterKind.StdoutPrinter, p⟩ : Printer).Append data w).2.fs p =
        some ((w.fs p).getD [] ++ data) ∧
      ((⟨PrinterKind.StdoutPrinter, p⟩ : Printer).Append data w).2.trace =
        w.trace ++ [Event.fwrite Stream.stdout data, Event.fwrite (Stream.file p) data]) ∧
    ((appendAll (StdoutPrinter.new p w).1 ds (StdoutPrinter.new p w).2).fs p = some ds.flatten ∧
      (appendAll (StdoutPrinter.new p w).1 ds (StdoutPrinter.new p w).2).out = w.out ++ ds.flatten ∧
      (appendAll (StdoutPrinter.new p w).1 ds (StdoutPrinter.new p w).2).err = w.err ∧
      ∀ q, q ≠ p →
        (appendAll (StdoutPrinter.new p w).1 ds (StdoutPrinter.new p w).2).fs q = w.fs q) ∧
    (((⟨PrinterKind.FilePrinter, p⟩ : Printer).Append data w).1 = Status.OK ∧
      ((⟨PrinterKind.FilePrinter, p⟩ : Printer).Append data w).2.out = w.out ∧
      ((⟨PrinterKind.FilePrinter, p⟩ : Printer).Append data w).2.fs p =
        some ((w.fs p).getD [] ++ data) ∧
      ((⟨PrinterKind.FilePrinter, p⟩ : Printer).Append data w).2.trace =
        w.trace ++ [Event.fwrite (Stream.file p) data]) ∧
    ((appendAll (FilePrinter.new p w).1 ds (FilePrinter.new p w).2).fs p = some ds.flatten ∧
      (appendAll (FilePrinter.new p w).1 ds (FilePrinter.new p w).2).out = w.out ∧
      (appendAll (FilePrinter.new p w).1 ds (FilePrinter.new p w).2).err = w.err ∧
      ∀ q, q ≠ p →
        (appendAll (FilePrinter.new p w).1 ds (FilePrinter.new p w).2).fs q = w.fs q) := by
  have hopen : (fopen p w).fs p = some [] := by simp [fopen]
  have hframe : ∀ q, q ≠ p → (fopen p w).fs q = w.fs q := fun q hne => by
    simp [fopen, Function.update_noteq hne]
  obtain ⟨so, sf, se, sq⟩ := appendAll_stdout p [] ds (fopen p w) hopen
  obtain ⟨fo, ff, fe, fq⟩ := appendAll_file p [] ds (fopen p w) hopen
  refine ⟨⟨rfl, rfl, ?_, ?_⟩, ⟨?_, ?_, ?_, ?_⟩, ⟨rfl, rfl, ?_, rfl⟩, ⟨?_, ?_, ?_, ?_⟩⟩
  · simp [Printer.Append, fwrite]
  · simp [Printer.Append, fwrite]
  · simpa [StdoutPrinter.new] using sf
  · simpa [StdoutPrinter.new] using so
  · simpa [StdoutPrinter.new] using se
  · intro q hne
    rw [← hframe q hne]
    exact sq q hne
  · simp [Printer.Append, fwrite]
  · simpa [FilePrinter.new] using ff
  · simpa [FilePrinter.new] using fo
  · simpa [FilePrinter.new] using fe
  · intro q hne
    rw [← hframe q hne]
    exact fq q hne

/-- X1: a count above the number of entries of `files` makes either handler
read `files[i]` past the end of the array: no result is defined. -/
theorem X1_handlers_past_end (dec : Decoder) (files : List Str) (num : Int) (filepath : Str)
    (w : World) (h : (files.length : Int) < num) :
    HandleDumpCommand dec files num w = none ∧
    HandleDumpFileCommand dec files num filepath w = none :=
  ⟨HandleDumpCommand_past_end dec files num w h,
   HandleDumpFileCommand_past_end dec files num filepath w h⟩

/-- X1 at a one-entry array and the count 2. -/
theorem X1_handlers_past_end_witness :
    ((["a".toList] : List Str).length : Int) < 2 ∧
    HandleDumpCommand decOK ["a".toList] 2 World.empty = none ∧
    HandleDumpFileCommand decOK ["a".toList] 2 "out/".toList World.empty = none :=
  ⟨by decide, X1_handlers_past_end decOK ["a".toList] 2 "out/".toList World.empty (by decide)⟩

end leveldbutil
